import Mathlib

/-!
Shallow embedding of the phenolphthalein concurrency-test runner core
(model, halt rules, observer, environment slots, spinner synchroniser),
with theorems checking the specification's claims against it.
-/

namespace Phph

/-- Maximum value of a Rust `usize` (64-bit), at which saturating adds stop. -/
def USIZE_MAX : Nat := 2 ^ 64 - 1

/-- Rust `usize::saturating_add(1)`. -/
def satSucc (n : Nat) : Nat := min (n + 1) USIZE_MAX

/-! ## Outcomes (src/model/outcome.rs) -/

/-- The result of running a checker (`Outcome` in src/model/outcome.rs).
Variant order gives the derived `Ord`: `Pass < Fail < Unknown`. -/
inductive Outcome where
  | Pass
  | Fail
  | Unknown
deriving DecidableEq, Repr

/-- Discriminant of an `Outcome`, realising the derived Rust `Ord`. -/
def Outcome.toNat : Outcome → Nat
  | .Pass => 0
  | .Fail => 1
  | .Unknown => 2

/-- Rust `Ord::max` on `Outcome`: returns the second argument on ties. -/
def Outcome.max (a b : Outcome) : Outcome :=
  if a.toNat ≤ b.toNat then b else a

/-- Rust `Ord::max` on `Option<Outcome>` (`None` is least; second argument
returned on ties), as used by `Report::insert`. -/
def optMax (a b : Option Outcome) : Option Outcome :=
  match a, b with
  | none, b => b
  | some x, none => some x
  | some x, some y => some (Outcome.max x y)

/-! ## State valuations and state info (src/model/state.rs) -/

/-- A value in a state (`Value` in src/model/state.rs): only 32-bit
signed integers exist so far. -/
inductive Value where
  | I32 (v : Int)
deriving DecidableEq, Repr

/-- An observed state: an ordered map from names to values
(`State = BTreeMap<String, Value>` in src/model/state.rs), embedded as its
ordered entry list. -/
def RState : Type := List (String × Value)

instance : DecidableEq RState := by
  unfold RState; infer_instance

/-- A record of information about an observed state
(`Info` in src/model/state.rs). -/
structure Info where
  /-- The number of the cycle where this observation first occurred. -/
  iteration : Nat
  /-- The number of times this state has occurred. -/
  occurs : Nat
  /-- The result of asking the test to check this state. -/
  outcome : Outcome
deriving DecidableEq, Repr

/-- `Info::new`: a fresh record with the given outcome and iteration and an
occurs count of 1. -/
def Info.new (outcome : Outcome) (iteration : Nat) : Info :=
  { occurs := 1, outcome := outcome, iteration := iteration }

/-- `Info::inc`: increase the occurs count by 1, saturating. -/
def Info.inc (i : Info) : Info :=
  { i with occurs := satSucc i.occurs }

/-! ## Reports (src/model/report.rs) -/

/-- A report entry for one state (`report::State`). -/
structure ReportState where
  state : RState
  info : Info

/-- A final report of observations (`Report` in src/model/report.rs). -/
structure Report where
  /-- The overall outcome; `none` when there were no states. -/
  outcome : Option Outcome
  /-- Reports for each state observed. -/
  states : List ReportState

/-- `Report::insert`: add a state, updating the aggregate outcome. -/
def Report.insert (r : Report) (s : ReportState) : Report :=
  { outcome := optMax r.outcome (some s.info.outcome)
    states := r.states ++ [s] }

/-! ## Observer (src/run/obs.rs) -/

/-- The observer's map of observations, embedded as a function from states
to optional info records (`HashMap<state::State, state::Info>`). -/
def StateMap : Type := RState → Option Info

/-- The observer for the outcomes of a test (`Observer` in src/run/obs.rs). -/
structure Observer where
  /-- The observations made so far. -/
  obs : StateMap
  /-- The number of iterations seen so far. -/
  iterations : Nat

/-- A summary of the observer's state (`Summary` in src/run/obs.rs). -/
structure Summary where
  /-- Iterations seen so far, including this one; saturates at `USIZE_MAX`. -/
  iterations : Nat
  /-- The information from the current observation. -/
  info : Info

/-- `Observer::observe_state`: look the current state up; on a hit increment
its occurs count, on a miss record a fresh info from the checker's outcome,
and store the result back in the map.  The environment read and the checker
call are abstracted into the observed state `st` and its checked outcome
`chk`. -/
def Observer.observe_state (o : Observer) (st : RState) (chk : Outcome) :
    Info × StateMap :=
  let info :=
    match o.obs st with
    | some i => i.inc
    | none => Info.new chk o.iterations
  (info, fun s => if s = st then some info else o.obs s)

/-- `Observer::observe`: observe the state, bump the (saturating) iteration
counter, and produce a summary carrying the new count. -/
def Observer.observe (o : Observer) (st : RState) (chk : Outcome) :
    Summary × Observer :=
  let is := o.observe_state st chk
  let iters := satSucc o.iterations
  ({ iterations := iters, info := is.1 }, { obs := is.2, iterations := iters })

/-- Folding `Observer::observe` over a sequence of observed states with
their checked outcomes. -/
def Observer.observeAll (o : Observer) (calls : List (RState × Outcome)) :
    Observer :=
  calls.foldl (fun o c => (o.observe c.1 c.2).2) o

/-- `Observer::into_report`: drain the observation map (in some order,
given here as the list `pairs`) into a report, starting from an empty
report with absent outcome. -/
def intoReport (pairs : List (RState × Info)) : Report :=
  pairs.foldl (fun rep si => rep.insert { state := si.1, info := si.2 })
    { outcome := none, states := [] }

/-! ## Halt conditions, rules, types, signal (src/run/halt.rs) -/

/-- Enumeration of ways the test can be halted (`Type` in src/run/halt.rs;
renamed since `Type` is reserved in Lean).  The derived order makes
`Rotate < Exit`. -/
inductive HaltType where
  | Rotate
  | Exit
deriving DecidableEq, Repr

/-- Discriminant realising the derived `Ord` on halt types. -/
def HaltType.toNat : HaltType → Nat
  | .Rotate => 0
  | .Exit => 1

/-- Rust `Ord::max` on halt types: second argument returned on ties. -/
def HaltType.max (a b : HaltType) : HaltType :=
  if a.toNat ≤ b.toNat then b else a

/-- A halting condition (`Condition` in src/run/halt.rs).  The
`OnSignal` atomic flag is embedded as its current boolean value; the
`EveryNIterations` payload is a `NonZeroUsize`, embedded as a `Nat`
required to be positive where it matters. -/
inductive Condition where
  | EveryNIterations (n : Nat)
  | OnSignal (flag : Bool)
  | OnOutcome (o : Outcome)

/-- `Condition::check`: does this condition hold of the summary? -/
def Condition.check (c : Condition) (os : Summary) : Bool :=
  match c with
  | .EveryNIterations n => os.iterations % n == 0
  | .OnSignal s => s
  | .OnOutcome o => os.info.outcome == o

/-- A pair of halt condition and halt type (`Rule` in src/run/halt.rs). -/
structure Rule where
  condition : Condition
  halt_type : HaltType

/-- `Rule::exit_type`: the halt type, when the condition fires. -/
def Rule.exit_type (r : Rule) (os : Summary) : Option HaltType :=
  if r.condition.check os then some r.halt_type else none

/-- One step of Rust `Iterator::max` over halt types: fold the running
maximum, starting it at the first element seen. -/
def iterStep (acc : Option HaltType) (x : HaltType) : Option HaltType :=
  some (match acc with
        | none => x
        | some a => HaltType.max a x)

/-- Rust `Iterator::max` over a list of halt types: `none` on empty,
otherwise the running maximum (later elements win ties). -/
def iterMax (l : List HaltType) : Option HaltType :=
  l.foldl iterStep none

/-- `shared::State::exit_type` (src/run/shared.rs): filter the rules to the
halt types of those whose condition fires, and take their maximum. -/
def exitType (halt_rules : List Rule) (summary : Summary) : Option HaltType :=
  iterMax (halt_rules.filterMap (fun c => c.exit_type summary))

/-- `halt::Type::to_u8` / `Signal::set` encoding of a halt type as a byte
(also `ExitType::to_u8` in src/fsa.rs): `Rotate ↦ 1`, `Exit ↦ 2`. -/
def HaltType.to_u8 : HaltType → Nat
  | .Rotate => 1
  | .Exit => 2

/-- `Signal::set`: the byte stored for halt type `ty`. -/
def Signal.set (ty : HaltType) : Nat := ty.to_u8

/-- `Signal::clear`: stores the byte 0. -/
def Signal.clear : Nat := 0

/-- `Signal::default`: a default `AtomicU8` holds 0. -/
def Signal.default : Nat := 0

/-- `Signal::get` (also `ExitType::from_u8` in src/fsa.rs): decode the
halt type, if any, from the stored byte. -/
def Signal.get (v : Nat) : Option HaltType :=
  match v with
  | 1 => some .Rotate
  | 2 => some .Exit
  | _ => none

/-! ## Spinner synchroniser (src/run/sync.rs) -/

/-- The counter-based spin synchroniser (`Spinner` in src/run/sync.rs).
The `AtomicIsize` counter is embedded as its current integer value. -/
structure Spinner where
  nthreads : Int
  inner : Int
deriving DecidableEq, Repr

/-- Result of one call to `Spinner::wait`/`Spinner::obs`, viewed up to the
point where the thread either stores and returns, enters the spin loop, or
trips the assertion. -/
inductive WaitResult where
  /-- The pre-increment count was −1: the counter is reset to `+nthreads`
  and the call returns without spinning. -/
  | release (s : Spinner)
  /-- The counter was merely incremented; the thread now spins while the
  counter is ≤ 0. -/
  | spin (s : Spinner)
  /-- The assertion `count < 0` failed on the pre-increment value. -/
  | assertFailed (count : Int)
deriving DecidableEq, Repr

/-- `Spinner::wait`: fetch-and-add 1; assert the fetched value was
negative; if it was −1, store `+nthreads` (releasing the next run phase),
otherwise spin while the counter is ≤ 0. -/
def Spinner.wait (s : Spinner) : WaitResult :=
  let count := s.inner
  if count < 0 then
    if count = -1 then .release { s with inner := s.nthreads }
    else .spin { s with inner := s.inner + 1 }
  else .assertFailed count

/-- `Spinner::obs`: delegates to `Spinner::wait`. -/
def Spinner.obs (s : Spinner) : WaitResult := s.wait

/-! ## Slots, reservations, environment (src/model/slot.rs,
src/api/rust/env.rs) -/

/-- The location of a variable in its type-specific variable mapping
(`Slot` in src/model/slot.rs). -/
structure Slot where
  /-- Whether this slot names an atomic variable. -/
  is_atomic : Bool
  /-- The index of this slot. -/
  index : Nat
deriving DecidableEq, Repr

/-- Numbers of atomic/non-atomic cells to reserve (`Reservation<T>` in
src/model/slot.rs; the phantom type parameter is dropped). -/
structure Reservation where
  atomic : Nat
  non_atomic : Nat
deriving DecidableEq, Repr

/-- `Reservation::add_slot`: extend the reservation to cover `slot`,
taking `max(count, index + 1)` on the matching atomicity. -/
def Reservation.add_slot (r : Reservation) (slot : Slot) : Reservation :=
  if slot.is_atomic then
    { r with atomic := Nat.max r.atomic (slot.index + 1) }
  else
    { r with non_atomic := Nat.max r.non_atomic (slot.index + 1) }

/-- `Reservation::of_slots`: fold `add_slot` over a slot list, starting
from the default (zero) reservation. -/
def Reservation.of_slots (slots : List Slot) : Reservation :=
  slots.foldl Reservation.add_slot { atomic := 0, non_atomic := 0 }

/-- The number of cells a reservation grants for a slot's atomicity: the
bound below which the slot's index is in range. -/
def slotBound (r : Reservation) (slot : Slot) : Nat :=
  if slot.is_atomic then r.atomic else r.non_atomic

/-- A set of atomic and non-atomic i32 cells (`Slotset<AtomicI32, i32>` in
src/api/rust/env.rs); each cell holds its current value. -/
structure Slotset where
  atomic : List Int
  non_atomic : List Int
deriving DecidableEq, Repr

/-- `Slotset::new`: allocate default-initialised (zero) vectors sized by
the reservation. -/
def Slotset.new (res : Reservation) : Slotset :=
  { atomic := List.replicate res.atomic 0
    non_atomic := List.replicate res.non_atomic 0 }

/-- `Slotset::get`: read the cell at `slot`, yielding the type's default
(0) when the index is out of range. -/
def Slotset.get (ss : Slotset) (slot : Slot) : Int :=
  if slot.is_atomic then
    (ss.atomic.get? slot.index).getD 0
  else
    (ss.non_atomic.get? slot.index).getD 0

/-- `Slotset::set`: write the cell at `slot`; a no-op when the index is
out of range (`List.set` is the identity there, matching the
`if let Some` in the source). -/
def Slotset.set (ss : Slotset) (slot : Slot) (v : Int) : Slotset :=
  if slot.is_atomic then
    { ss with atomic := ss.atomic.set slot.index v }
  else
    { ss with non_atomic := ss.non_atomic.set slot.index v }

/-- A slot's index falls inside the cells this slotset actually holds for
its atomicity. -/
def Slotset.inRange (ss : Slotset) (slot : Slot) : Prop :=
  slot.index < if slot.is_atomic then ss.atomic.length else ss.non_atomic.length

instance (ss : Slotset) (slot : Slot) : Decidable (ss.inRange slot) := by
  unfold Slotset.inRange
  infer_instance

/-- The native-Rust environment (`Env` in src/api/rust/env.rs): the set of
32-bit slots. -/
structure Env where
  i32s : Slotset
deriving DecidableEq, Repr

/-- `Env::of_reservations`: build the i32 slotset from the reservation. -/
def Env.of_reservations (i32s : Reservation) : Env :=
  { i32s := Slotset.new i32s }

/-- `Env::get_i32`. -/
def Env.get_i32 (e : Env) (slot : Slot) : Int := e.i32s.get slot

/-- `Env::set_i32`. -/
def Env.set_i32 (e : Env) (slot : Slot) (v : Int) : Env :=
  { e with i32s := e.i32s.set slot v }

/-! ## Manifests (src/model/manifest.rs) and manifested environments
(src/run/obs.rs) -/

/-- A variable record in a test manifest (`VarRecord<i32>`). -/
structure VarRecord where
  /-- The initial value of the variable, if one exists. -/
  initial_value : Option Int
  /-- The slot of the variable. -/
  slot : Slot
deriving DecidableEq, Repr

/-- A test manifest (`Manifest` in src/model/manifest.rs).  The ordered
`BTreeMap` of variables is embedded as its (name-ordered) entry list. -/
structure Manifest where
  n_threads : Nat
  i32s : List (String × VarRecord)

/-- `Manifest::reserve`: a reservation wide enough for this manifest's
variables. -/
def Manifest.reserve (m : Manifest) : Reservation :=
  Reservation.of_slots (m.i32s.map (fun x => x.2.slot))

/-- `Manifested::reset`: write every variable's initial value (or 0 when
absent) to its slot. -/
def Manifested.reset (m : Manifest) (e : Env) : Env :=
  m.i32s.foldl (fun e r => e.set_i32 r.2.slot (r.2.initial_value.getD 0)) e

/-- `Manifested::values` (via `i32_values`): read every variable's slot,
in manifest iteration order. -/
def Manifested.values (m : Manifest) (e : Env) : List (String × Value) :=
  m.i32s.map (fun r => (r.1, Value.I32 (e.get_i32 r.2.slot)))

/-! ## Instances and outcome finalisation (src/run/instance.rs,
src/run/fsa.rs) -/

/-- Errors of the runner core (`err::Error`), restricted to the variants
the modelled operations can produce. -/
inductive Error where
  | NotEnoughThreads
  | LockReleaseFailed
deriving DecidableEq, Repr

/-- A test instance (`Instance` in src/run/instance.rs), abstracted to
what `into_outcome` manipulates: the number of `Inner` handles in its
vector (each holding one `Arc` reference to the shared tester state), the
number of references to that state held outside the instance, and the
shared halt-signal byte. -/
structure InstanceM where
  /-- `vec.len()`: each element holds one `Arc` reference to the state. -/
  nhandles : Nat
  /-- References to the shared tester state live outside this instance. -/
  external : Nat
  /-- The shared `halt_state` byte. -/
  halt_signal : Nat
deriving DecidableEq, Repr

/-- `Inner::set_halt_state`: the byte stored for an optional halt type
(`state.map(to_u8).unwrap_or(0)`). -/
def setHaltStateByte (state : Option HaltType) : Nat :=
  (state.map HaltType.to_u8).getD 0

/-- `Inner::get_state`: `Arc::try_unwrap` succeeds exactly when the
reference count at the call is 1, and fails with `LockReleaseFailed`
otherwise.  The count passed in is the number of live references to the
shared tester state at that point. -/
def Inner.get_state (refcount : Nat) : Except Error Unit :=
  if refcount = 1 then .ok () else .error .LockReleaseFailed

/-- Outcome of running an instance (`Outcome` in src/run/instance.rs). -/
inductive RunOutcomeM where
  /-- Rotate: the instance is returned for reuse. -/
  | Rotate (inst : InstanceM)
  /-- Exit: the shared tester state has been extracted. -/
  | Exit
deriving DecidableEq, Repr

/-- `Instance::into_outcome`: on `Rotate`, clear the halt signal and
return the instance; on `Exit`, clone one handle's reference, drop the
instance (releasing its `nhandles` references), and unwrap the shared
state from the remaining `external + 1` references. -/
def Instance.into_outcome (inst : InstanceM) (halt_type : HaltType) :
    Except Error RunOutcomeM :=
  if inst.nhandles = 0 then .error .NotEnoughThreads
  else
    match halt_type with
    | .Rotate =>
        .ok (.Rotate { inst with halt_signal := setHaltStateByte none })
    | .Exit =>
        (Inner.get_state (inst.external + 1)).map (fun _ => .Exit)

/-! ## Helper lemmas -/

/-- The discriminant of an `Outcome` determines it. -/
lemma Outcome.toNat_inj : ∀ {a b : Outcome}, a.toNat = b.toNat → a = b := by
  intro a b h
  cases a <;> cases b <;> simp_all [Outcome.toNat]

/-- The discriminant of `Outcome.max` is the `Nat` maximum. -/
lemma Outcome.toNat_max (a b : Outcome) :
    (Outcome.max a b).toNat = Nat.max a.toNat b.toNat := by
  cases a <;> cases b <;> rfl

/-- `satSucc` never exceeds the saturation bound when it starts below it,
and never decreases below it either. -/
lemma satSucc_le_max (n : Nat) : satSucc n ≤ USIZE_MAX := by
  unfold satSucc
  omega

lemma le_satSucc {n : Nat} (h : n ≤ USIZE_MAX) : n ≤ satSucc n := by
  unfold satSucc
  omega

lemma one_le_satSucc (n : Nat) : 1 ≤ satSucc n := by
  have h : 1 ≤ USIZE_MAX := by decide
  unfold satSucc
  omega

/-- Observing rewrites the map exactly at the observed state. -/
lemma Observer.observe_snd_obs (o : Observer) (st : RState) (chk : Outcome) :
    ((o.observe st chk).2).obs = (o.observe_state st chk).2 := rfl

lemma Observer.observe_state_snd_apply (o : Observer) (st s : RState)
    (chk : Outcome) :
    (o.observe_state st chk).2 s =
      if s = st then some (o.observe_state st chk).1 else o.obs s := rfl

lemma Observer.observe_state_fst_of_some {o : Observer} {st : RState}
    {chk : Outcome} {i : Info} (h : o.obs st = some i) :
    (o.observe_state st chk).1 = i.inc := by
  unfold Observer.observe_state
  simp only [h]

/-- Monotonicity of a state's record across any sequence of observations:
occurs never decreases, iteration and outcome never change. -/
lemma observeAll_mono (calls : List (RState × Outcome)) :
    ∀ (o : Observer) (st : RState) (i : Info),
      o.obs st = some i → i.occurs ≤ USIZE_MAX →
      ∃ i', (o.observeAll calls).obs st = some i'
        ∧ i.occurs ≤ i'.occurs ∧ i'.occurs ≤ USIZE_MAX
        ∧ i'.iteration = i.iteration ∧ i'.outcome = i.outcome := by
  induction calls with
  | nil =>
      intro o st i h hb
      exact ⟨i, h, le_refl _, hb, rfl, rfl⟩
  | cons c tl ih =>
      intro o st i h hb
      have hstep : Observer.observeAll o (c :: tl)
          = Observer.observeAll (o.observe c.1 c.2).2 tl := rfl
      rw [hstep]
      by_cases hst : st = c.1
      · rw [hst] at h
        have hobs : ((o.observe c.1 c.2).2).obs st = some i.inc := by
          rw [Observer.observe_snd_obs, Observer.observe_state_snd_apply,
            if_pos hst, Observer.observe_state_fst_of_some h]
        obtain ⟨i', h1, h2, h3, h4, h5⟩ := ih _ st i.inc hobs (satSucc_le_max _)
        refine ⟨i', h1, le_trans (le_satSucc hb) h2, h3, ?_, ?_⟩
        · rw [h4]; rfl
        · rw [h5]; rfl
      · have hobs : ((o.observe c.1 c.2).2).obs st = some i := by
          rw [Observer.observe_snd_obs, Observer.observe_state_snd_apply,
            if_neg hst]
          exact h
        exact ih _ st i hobs hb

/-- `Exit` absorbs the running maximum of halt types. -/
lemma foldl_iterStep_exit (l : List HaltType) :
    l.foldl iterStep (some .Exit) = some .Exit := by
  induction l with
  | nil => rfl
  | cons x xs ih =>
      rw [List.foldl_cons]
      have hx : iterStep (some .Exit) x = some .Exit := by cases x <;> rfl
      rw [hx, ih]

/-- From `Rotate`, the running maximum of halt types becomes `Exit`
exactly when an `Exit` remains in the list. -/
lemma foldl_iterStep_rotate (l : List HaltType) :
    l.foldl iterStep (some .Rotate)
      = if HaltType.Exit ∈ l then some .Exit else some .Rotate := by
  induction l with
  | nil => rfl
  | cons x xs ih =>
      rw [List.foldl_cons]
      cases x
      · have hx : iterStep (some .Rotate) .Rotate = some .Rotate := rfl
        rw [hx, ih]
        simp [List.mem_cons]
      · have hx : iterStep (some .Rotate) .Exit = some .Exit := rfl
        rw [hx, foldl_iterStep_exit]
        simp [List.mem_cons]

lemma iterMax_cons (x : HaltType) (xs : List HaltType) :
    iterMax (x :: xs) = xs.foldl iterStep (some x) := rfl

lemma iterMax_none_iff (l : List HaltType) : iterMax l = none ↔ l = [] := by
  cases l with
  | nil => simp [iterMax]
  | cons x xs =>
      rw [iterMax_cons]
      constructor
      · intro h
        cases x
        · rw [foldl_iterStep_rotate] at h
          split at h <;> cases h
        · rw [foldl_iterStep_exit] at h
          cases h
      · intro h
        cases h

lemma iterMax_eq_exit_iff (l : List HaltType) :
    iterMax l = some .Exit ↔ HaltType.Exit ∈ l := by
  cases l with
  | nil => simp [iterMax]
  | cons x xs =>
      rw [iterMax_cons]
      cases x
      · rw [foldl_iterStep_rotate]
        by_cases hm : HaltType.Exit ∈ xs
        · simp [hm, List.mem_cons]
        · simp [hm, List.mem_cons]
      · rw [foldl_iterStep_exit]
        simp [List.mem_cons]

lemma iterMax_eq_rotate_iff (l : List HaltType) :
    iterMax l = some .Rotate ↔ (l ≠ [] ∧ HaltType.Exit ∉ l) := by
  cases l with
  | nil => simp [iterMax]
  | cons x xs =>
      rw [iterMax_cons]
      cases x
      · rw [foldl_iterStep_rotate]
        by_cases hm : HaltType.Exit ∈ xs
        · simp [hm, List.mem_cons]
        · simp [hm, List.mem_cons]
      · rw [foldl_iterStep_exit]
        simp [List.mem_cons]

/-- A rule's exit type is present exactly when its condition fires. -/
lemma Rule.exit_type_eq_none {r : Rule} {s : Summary} :
    r.exit_type s = none ↔ r.condition.check s = false := by
  unfold Rule.exit_type
  split <;> simp_all

lemma Rule.exit_type_eq_some {r : Rule} {s : Summary} {t : HaltType} :
    r.exit_type s = some t
      ↔ (r.condition.check s = true ∧ r.halt_type = t) := by
  unfold Rule.exit_type
  split <;> simp_all

/-- Folding `Report::insert` accumulates the outcome by `optMax`. -/
lemma intoReport_foldl (pairs : List (RState × Info)) (rep : Report) :
    (pairs.foldl (fun rep si => rep.insert { state := si.1, info := si.2 })
        rep).outcome
      = (pairs.map (fun si => si.2.outcome)).foldl
          (fun a o => optMax a (some o)) rep.outcome := by
  induction pairs generalizing rep with
  | nil => rfl
  | cons p ps ih =>
      rw [List.foldl_cons, List.map_cons, List.foldl_cons]
      exact ih _

lemma foldl_optMax_some (l : List Outcome) (x : Outcome) :
    l.foldl (fun a o => optMax a (some o)) (some x)
      = some (l.foldl Outcome.max x) := by
  induction l generalizing x with
  | nil => rfl
  | cons y ys ih =>
      rw [List.foldl_cons, List.foldl_cons]
      exact ih _

/-- The running `Outcome.max` bounds its seed and every list element. -/
lemma foldl_max_bounds (l : List Outcome) (x : Outcome) :
    x.toNat ≤ (l.foldl Outcome.max x).toNat
    ∧ ∀ y ∈ l, y.toNat ≤ (l.foldl Outcome.max x).toNat := by
  induction l generalizing x with
  | nil => exact ⟨le_refl _, by simp⟩
  | cons y ys ih =>
      rw [List.foldl_cons]
      obtain ⟨h1, h2⟩ := ih (Outcome.max x y)
      have hx : x.toNat ≤ (Outcome.max x y).toNat :=
        Outcome.toNat_max x y ▸ Nat.le_max_left _ _
      have hy : y.toNat ≤ (Outcome.max x y).toNat :=
        Outcome.toNat_max x y ▸ Nat.le_max_right _ _
      refine ⟨le_trans hx h1, ?_⟩
      intro z hz
      rcases List.mem_cons.mp hz with h | h
      · rw [h]; exact le_trans hy h1
      · exact h2 z h

/-- The running `Outcome.max` is the seed or some list element. -/
lemma foldl_max_mem (l : List Outcome) (x : Outcome) :
    l.foldl Outcome.max x = x ∨ l.foldl Outcome.max x ∈ l := by
  induction l generalizing x with
  | nil => left; rfl
  | cons y ys ih =>
      rw [List.foldl_cons]
      rcases ih (Outcome.max x y) with h | h
      · rw [h]
        unfold Outcome.max
        split
        · right; exact List.mem_cons_self _ _
        · left; rfl
      · right; exact List.mem_cons_of_mem _ h

/-- The aggregate outcome is absent exactly on an empty drain. -/
lemma reportOutcome_none_iff (pairs : List (RState × Info)) :
    (intoReport pairs).outcome = none ↔ pairs = [] := by
  unfold intoReport
  rw [intoReport_foldl]
  cases pairs with
  | nil => simp
  | cons p ps =>
      rw [List.map_cons, List.foldl_cons]
      have h0 : optMax none (some p.2.outcome) = some p.2.outcome := rfl
      rw [h0, foldl_optMax_some]
      simp

/-- The aggregate outcome is the maximum of the drained outcomes. -/
lemma reportOutcome_some_iff (pairs : List (RState × Info)) (oc : Outcome) :
    (intoReport pairs).outcome = some oc
      ↔ (oc ∈ pairs.map (fun si => si.2.outcome)
          ∧ ∀ oc' ∈ pairs.map (fun si => si.2.outcome),
            oc'.toNat ≤ oc.toNat) := by
  unfold intoReport
  rw [intoReport_foldl]
  cases hmap : pairs.map (fun si => si.2.outcome) with
  | nil => simp
  | cons y ys =>
      rw [List.foldl_cons]
      have h0 : optMax none (some y) = some y := rfl
      rw [h0, foldl_optMax_some]
      constructor
      · intro h
        injection h with h
        obtain ⟨h1, h2⟩ := foldl_max_bounds ys y
        subst h
        refine ⟨?_, ?_⟩
        · rcases foldl_max_mem ys y with hm | hm
          · rw [hm]; exact List.mem_cons_self _ _
          · exact List.mem_cons_of_mem _ hm
        · intro z hz
          rcases List.mem_cons.mp hz with h | h
          · rw [h]; exact h1
          · exact h2 z h
      · rintro ⟨hmem, hub⟩
        obtain ⟨h1, h2⟩ := foldl_max_bounds ys y
        have hMle : (ys.foldl Outcome.max y).toNat ≤ oc.toNat := by
          rcases foldl_max_mem ys y with hm | hm
          · rw [hm]; exact hub y (List.mem_cons_self _ _)
          · exact hub _ (List.mem_cons_of_mem _ hm)
        have hocle : oc.toNat ≤ (ys.foldl Outcome.max y).toNat := by
          rcases List.mem_cons.mp hmem with h | h
          · rw [h]; exact h1
          · exact h2 oc h
        have : ys.foldl Outcome.max y = oc :=
          Outcome.toNat_inj (Nat.le_antisymm hMle hocle)
        rw [this]

/-- The aggregate outcome is invariant under drain order. -/
lemma reportOutcome_perm (pairs pairs' : List (RState × Info))
    (h : pairs.Perm pairs') :
    (intoReport pairs).outcome = (intoReport pairs').outcome := by
  cases hc : (intoReport pairs).outcome with
  | none =>
      rw [reportOutcome_none_iff] at hc
      subst hc
      have h2 : pairs' = [] := h.symm.eq_nil
      subst h2
      rfl
  | some oc =>
      rw [reportOutcome_some_iff] at hc
      have hm := h.map (fun si => si.2.outcome)
      exact ((reportOutcome_some_iff pairs' oc).mpr
        ⟨hm.mem_iff.mp hc.1, fun oc' hmem => hc.2 oc' (hm.mem_iff.mpr hmem)⟩).symm

/-- The drained records are kept, in order, in the report's state list. -/
lemma intoReport_states (pairs : List (RState × Info)) :
    (intoReport pairs).states.map (fun st => (st.state, st.info)) = pairs := by
  have general : ∀ (l : List (RState × Info)) (rep : Report),
      (l.foldl (fun rep si => rep.insert { state := si.1, info := si.2 })
          rep).states
        = rep.states ++ l.map (fun si => ⟨si.1, si.2⟩) := by
    intro l
    induction l with
    | nil => intro rep; simp
    | cons p ps ih =>
        intro rep
        rw [List.foldl_cons, ih, List.map_cons]
        show (rep.states ++ [⟨p.1, p.2⟩]) ++ _ = _
        rw [List.append_assoc]
        rfl
  unfold intoReport
  rw [general]
  simp only [List.nil_append, List.map_map]
  induction pairs with
  | nil => rfl
  | cons p ps ih =>
      rw [List.map_cons, ih]
      rfl

/-- Writing a slot never changes the shape of a slotset. -/
lemma Slotset.set_lengths (ss : Slotset) (slot : Slot) (v : Int) :
    ((ss.set slot v).atomic).length = ss.atomic.length
    ∧ ((ss.set slot v).non_atomic).length = ss.non_atomic.length := by
  unfold Slotset.set
  split <;> simp [List.length_set]

lemma Slotset.inRange_set (ss : Slotset) (s' : Slot) (v : Int) (s : Slot) :
    (ss.set s' v).inRange s ↔ ss.inRange s := by
  unfold Slotset.inRange
  obtain ⟨h1, h2⟩ := Slotset.set_lengths ss s' v
  rw [h1, h2]

/-- Reading back the slot just written, when it is in range. -/
lemma Slotset.get_set_self (ss : Slotset) (s : Slot) (v : Int)
    (h : ss.inRange s) :
    (ss.set s v).get s = v := by
  unfold Slotset.inRange at h
  unfold Slotset.set Slotset.get
  cases hat : s.is_atomic <;>
    simp only [hat, if_true, if_false, Bool.false_eq_true] at h ⊢ <;>
    rw [List.get?_set_eq_of_lt _ h] <;> rfl

/-- Writing one slot leaves every other slot's cell unchanged. -/
lemma Slotset.get_set_ne (ss : Slotset) (s s' : Slot) (v : Int)
    (h : ¬ s' = s) :
    (ss.set s' v).get s = ss.get s := by
  obtain ⟨a, i⟩ := s
  obtain ⟨a', i'⟩ := s'
  unfold Slotset.set Slotset.get
  cases a <;> cases a' <;>
    simp only [Slot.mk.injEq, true_and, false_and, not_and,
      Bool.false_eq_true, Bool.true_eq_false, if_true, if_false,
      false_implies, true_implies] at h ⊢
  · rw [List.get?_set_ne _ _ h]
  · rw [List.get?_set_ne _ _ h]

/-- Resetting variables whose slots all avoid `s` leaves `s` alone. -/
lemma reset_frame (l : List (String × VarRecord)) :
    ∀ (e : Env) (s : Slot), (∀ r ∈ l, ¬ r.2.slot = s) →
    (l.foldl (fun e r => e.set_i32 r.2.slot (r.2.initial_value.getD 0))
        e).get_i32 s
      = e.get_i32 s := by
  induction l with
  | nil => intro e s _; rfl
  | cons p ps ih =>
      intro e s h
      rw [List.foldl_cons, ih _ s fun r hr => h r (List.mem_cons_of_mem _ hr)]
      exact Slotset.get_set_ne _ _ _ _ (h p (List.mem_cons_self _ _))

/-- Resetting preserves the environment's shape. -/
lemma reset_lengths (l : List (String × VarRecord)) :
    ∀ (e : Env),
    ((l.foldl (fun e r => e.set_i32 r.2.slot (r.2.initial_value.getD 0))
        e).i32s.atomic).length = e.i32s.atomic.length
    ∧ ((l.foldl (fun e r => e.set_i32 r.2.slot (r.2.initial_value.getD 0))
        e).i32s.non_atomic).length = e.i32s.non_atomic.length := by
  induction l with
  | nil => intro e; exact ⟨rfl, rfl⟩
  | cons p ps ih =>
      intro e
      rw [List.foldl_cons]
      obtain ⟨h1, h2⟩ := ih (e.set_i32 p.2.slot (p.2.initial_value.getD 0))
      obtain ⟨h3, h4⟩ :=
        Slotset.set_lengths e.i32s p.2.slot (p.2.initial_value.getD 0)
      exact ⟨h1.trans h3, h2.trans h4⟩

/-- After a reset over pairwise-distinct in-range slots, every variable's
slot holds its initial value (or zero). -/
lemma values_reset_list (l : List (String × VarRecord)) :
    ∀ (e : Env),
      (l.map (fun r => r.2.slot)).Nodup →
      (∀ r ∈ l, e.i32s.inRange r.2.slot) →
      l.map (fun r => (r.1, Value.I32
        ((l.foldl (fun e r => e.set_i32 r.2.slot (r.2.initial_value.getD 0))
            e).get_i32 r.2.slot)))
      = l.map (fun r => (r.1, Value.I32 (r.2.initial_value.getD 0))) := by
  induction l with
  | nil => intro e _ _; rfl
  | cons p ps ih =>
      intro e hnd hir
      rw [List.map_cons] at hnd
      have hndtl := hnd.of_cons
      have hphead : ∀ r ∈ ps, ¬ r.2.slot = p.2.slot := by
        intro r hr he
        exact (List.nodup_cons.mp hnd).1
          (he ▸ List.mem_map_of_mem (fun r => r.2.slot) hr)
      rw [List.map_cons, List.map_cons, List.foldl_cons]
      have hhead :
          (ps.foldl
              (fun e r => e.set_i32 r.2.slot (r.2.initial_value.getD 0))
              (e.set_i32 p.2.slot (p.2.initial_value.getD 0))).get_i32
            p.2.slot
          = p.2.initial_value.getD 0 := by
        rw [reset_frame ps _ p.2.slot hphead]
        exact Slotset.get_set_self e.i32s p.2.slot _
          (hir p (List.mem_cons_self _ _))
      rw [hhead]
      congr 1
      have hirtl : ∀ r ∈ ps,
          (e.set_i32 p.2.slot (p.2.initial_value.getD 0)).i32s.inRange
            r.2.slot := by
        intro r hr
        show (e.i32s.set p.2.slot (p.2.initial_value.getD 0)).inRange r.2.slot
        rw [Slotset.inRange_set]
        exact hir r (List.mem_cons_of_mem _ hr)
      exact ih (e.set_i32 p.2.slot (p.2.initial_value.getD 0)) hndtl hirtl

/-- `add_slot` only grows a reservation. -/
lemma Reservation.add_slot_le (r : Reservation) (s : Slot) :
    r.atomic ≤ (r.add_slot s).atomic
    ∧ r.non_atomic ≤ (r.add_slot s).non_atomic := by
  unfold Reservation.add_slot
  split
  · exact ⟨Nat.le_max_left _ _, Nat.le_refl _⟩
  · exact ⟨Nat.le_refl _, Nat.le_max_left _ _⟩

/-- Folding `add_slot` only grows a reservation. -/
lemma foldl_add_slot_le (slots : List Slot) :
    ∀ (r : Reservation),
    r.atomic ≤ (slots.foldl Reservation.add_slot r).atomic
    ∧ r.non_atomic ≤ (slots.foldl Reservation.add_slot r).non_atomic := by
  induction slots with
  | nil => intro r; exact ⟨Nat.le_refl _, Nat.le_refl _⟩
  | cons s ss ih =>
      intro r
      rw [List.foldl_cons]
      obtain ⟨h1, h2⟩ := ih (r.add_slot s)
      obtain ⟨h3, h4⟩ := Reservation.add_slot_le r s
      exact ⟨h3.trans h1, h4.trans h2⟩

/-- A reservation folded over a slot list covers every slot in the list. -/
lemma of_slots_covers (slots : List Slot) :
    ∀ (r : Reservation) (s : Slot), s ∈ slots →
    s.index < slotBound (slots.foldl Reservation.add_slot r) s := by
  induction slots with
  | nil => intro _ s hs; cases hs
  | cons x xs ih =>
      intro r s hs
      rw [List.foldl_cons]
      rcases List.mem_cons.mp hs with h | h
      · subst h
        obtain ⟨h1, h2⟩ := foldl_add_slot_le xs (r.add_slot s)
        have hcov : s.index < slotBound (r.add_slot s) s := by
          unfold slotBound Reservation.add_slot
          cases hat : s.is_atomic <;>
            simp only [hat, if_true, if_false, Bool.false_eq_true] <;>
            exact Nat.lt_of_lt_of_le (Nat.lt_succ_self _)
              (Nat.le_max_right _ _)
        unfold slotBound at hcov ⊢
        cases hat : s.is_atomic <;>
          simp only [hat, if_true, if_false, Bool.false_eq_true] at hcov ⊢
        · exact Nat.lt_of_lt_of_le hcov h2
        · exact Nat.lt_of_lt_of_le hcov h1
      · exact ih _ s h

/-! ## Claim theorems -/

/-- C10: setting the halt signal to a halt type and reading it back yields
exactly that type; after a clear, and on a default-constructed signal, the
read yields no halt type — the byte encoding (0 none, 1 Rotate, 2 Exit)
round-trips exactly. -/
theorem signal_roundtrip :
    (∀ t : HaltType, Signal.get (Signal.set t) = some t)
    ∧ Signal.get Signal.clear = none
    ∧ Signal.get Signal.default = none := by
  refine ⟨?_, rfl, rfl⟩
  intro t
  cases t <;> rfl

/-- C2: `Spinner::obs` is extensionally equal to `Spinner::wait`, and that
common operation atomically increments the counter, stores `+nthreads`
when the pre-increment value was −1, and otherwise spins (the assertion
that the pre-increment value is negative firing when it is not). -/
theorem spinner_obs_eq_wait :
    (∀ s : Spinner, Spinner.obs s = Spinner.wait s)
    ∧ (∀ s : Spinner, s.inner = -1 →
        Spinner.wait s = .release { s with inner := s.nthreads })
    ∧ (∀ s : Spinner, s.inner < -1 →
        Spinner.wait s = .spin { s with inner := s.inner + 1 })
    ∧ (∀ s : Spinner, 0 ≤ s.inner → Spinner.wait s = .assertFailed s.inner) := by
  refine ⟨fun s => rfl, ?_, ?_, ?_⟩
  · intro s h
    unfold Spinner.wait
    rw [if_pos (by omega), if_pos h]
  · intro s h
    unfold Spinner.wait
    rw [if_pos (by omega), if_neg (by omega)]
  · intro s h
    unfold Spinner.wait
    rw [if_neg (by omega)]

/-- Witness for C2 at a four-thread spinner in its three counter regimes. -/
theorem spinner_obs_eq_wait_witness :
    Spinner.obs ⟨4, -1⟩ = Spinner.wait ⟨4, -1⟩
    ∧ Spinner.wait ⟨4, -1⟩ = .release ⟨4, 4⟩
    ∧ Spinner.wait ⟨4, -3⟩ = .spin ⟨4, -2⟩
    ∧ Spinner.wait ⟨4, 2⟩ = .assertFailed 2 :=
  ⟨spinner_obs_eq_wait.1 ⟨4, -1⟩,
   spinner_obs_eq_wait.2.1 ⟨4, -1⟩ rfl,
   spinner_obs_eq_wait.2.2.1 ⟨4, -3⟩ (by decide),
   spinner_obs_eq_wait.2.2.2 ⟨4, 2⟩ (by decide)⟩

/-- C9: on a slotset allocated from a reservation, `Slotset::get` and
`Slotset::set` are total: a set followed by a get returns the stored value
when the slot's index is within the reservation for its atomicity; a get
out of range returns the type's default 0; and a set out of range is a
no-op leaving the slotset unchanged. -/
theorem slotset_access_total (r : Reservation) (e : Slotset) (slot : Slot)
    (v : Int)
    (ha : e.atomic.length = r.atomic)
    (hna : e.non_atomic.length = r.non_atomic) :
    (slot.index < slotBound r slot → (e.set slot v).get slot = v)
    ∧ (slotBound r slot ≤ slot.index → e.get slot = 0)
    ∧ (slotBound r slot ≤ slot.index → e.set slot v = e) := by
  refine ⟨?_, ?_, ?_⟩ <;> intro h <;>
    cases hat : slot.is_atomic <;>
    simp only [slotBound, hat, if_true, if_false, Bool.false_eq_true,
      Slotset.get, Slotset.set] at h ⊢
  · rw [List.get?_set_eq_of_lt _ (by omega)]
    rfl
  · rw [List.get?_set_eq_of_lt _ (by omega)]
    rfl
  · rw [List.get?_eq_none.mpr (by omega)]
    rfl
  · rw [List.get?_eq_none.mpr (by omega)]
    rfl
  · rw [List.set_eq_of_length_le (by omega)]
  · rw [List.set_eq_of_length_le (by omega)]

/-- C5: on a manifest whose variable records occupy pairwise distinct
slots, every slot lies inside the reservation computed from the manifest
(so no write is dropped), and `Manifested::reset` followed by the
valuation yields each variable, in manifest order, at its declared initial
value or 0 where absent. -/
theorem reset_values_initials (m : Manifest)
    (hnd : (m.i32s.map (fun r => r.2.slot)).Nodup) :
    (∀ r ∈ m.i32s, r.2.slot.index < slotBound m.reserve r.2.slot)
    ∧ Manifested.values m
        (Manifested.reset m (Env.of_reservations m.reserve))
      = m.i32s.map (fun r => (r.1, Value.I32 (r.2.initial_value.getD 0))) := by
  have hcov : ∀ r ∈ m.i32s, r.2.slot.index < slotBound m.reserve r.2.slot := by
    intro r hr
    exact of_slots_covers (m.i32s.map (fun x => x.2.slot)) _ r.2.slot
      (List.mem_map_of_mem (fun x => x.2.slot) hr)
  refine ⟨hcov, ?_⟩
  have hir : ∀ r ∈ m.i32s,
      (Env.of_reservations m.reserve).i32s.inRange r.2.slot := by
    intro r hr
    have hb := hcov r hr
    unfold Slotset.inRange Env.of_reservations Slotset.new
    unfold slotBound at hb
    cases hat : r.2.slot.is_atomic <;>
      simp only [hat, if_true, if_false, Bool.false_eq_true,
        List.length_replicate] at hb ⊢ <;> exact hb
  exact values_reset_list m.i32s (Env.of_reservations m.reserve) hnd hir

/-- Witness for C5 on a two-variable manifest (one atomic with initial
value 3, one non-atomic with no initial value). -/
theorem reset_values_initials_witness :
    Manifested.values ⟨2, [("x", ⟨some 3, ⟨true, 0⟩⟩),
        ("y", ⟨none, ⟨false, 0⟩⟩)]⟩
      (Manifested.reset ⟨2, [("x", ⟨some 3, ⟨true, 0⟩⟩),
          ("y", ⟨none, ⟨false, 0⟩⟩)]⟩
        (Env.of_reservations
          (Manifest.reserve ⟨2, [("x", ⟨some 3, ⟨true, 0⟩⟩),
              ("y", ⟨none, ⟨false, 0⟩⟩)]⟩)))
      = [("x", Value.I32 3), ("y", Value.I32 0)] :=
  (reset_values_initials ⟨2, [("x", ⟨some 3, ⟨true, 0⟩⟩),
      ("y", ⟨none, ⟨false, 0⟩⟩)]⟩ (by decide)).2

/-- C6: `Info::new` has occurs 1 and the given outcome and iteration;
`Info::inc` bumps occurs saturating at the maximum usize and leaves
iteration and outcome alone; hence across any sequence of
`Observer::observe` calls a recorded state's occurs count is
non-decreasing and its iteration and outcome fields never change. -/
theorem info_lifecycle :
    (∀ (oc : Outcome) (k : Nat),
      (Info.new oc k).occurs = 1 ∧ (Info.new oc k).iteration = k
        ∧ (Info.new oc k).outcome = oc)
    ∧ (∀ i : Info, (Info.inc i).occurs = satSucc i.occurs
        ∧ (Info.inc i).iteration = i.iteration
        ∧ (Info.inc i).outcome = i.outcome
        ∧ (i.occurs ≤ USIZE_MAX → i.occurs ≤ (Info.inc i).occurs))
    ∧ (∀ (o : Observer) (calls : List (RState × Outcome)) (st : RState)
        (i : Info),
        o.obs st = some i → i.occurs ≤ USIZE_MAX →
        ∃ i', (o.observeAll calls).obs st = some i'
          ∧ i.occurs ≤ i'.occurs ∧ i'.iteration = i.iteration
          ∧ i'.outcome = i.outcome) := by
  refine ⟨fun oc k => ⟨rfl, rfl, rfl⟩,
    fun i => ⟨rfl, rfl, rfl, le_satSucc⟩, ?_⟩
  intro o calls st i h hb
  obtain ⟨i', h1, h2, _, h4, h5⟩ := observeAll_mono calls o st i h hb
  exact ⟨i', h1, h2, h4, h5⟩

/-- Witness for C6: re-observing an already-recorded empty valuation keeps
its iteration and outcome and does not decrease its occurs count. -/
theorem info_lifecycle_witness :
    ∃ i', (Observer.observeAll
        ⟨fun s => if s = ([] : RState) then some (Info.new .Pass 0) else none,
          1⟩
        [(([] : RState), Outcome.Fail)]).obs ([] : RState) = some i'
      ∧ 1 ≤ i'.occurs ∧ i'.iteration = 0 ∧ i'.outcome = Outcome.Pass :=
  info_lifecycle.2.2
    ⟨fun s => if s = ([] : RState) then some (Info.new .Pass 0) else none, 1⟩
    [(([] : RState), Outcome.Fail)] ([] : RState) (Info.new .Pass 0)
    rfl (by decide)

/-- C7: for nonzero n, on any summary produced by `Observer::observe` the
`EveryNIterations(n)` condition fires exactly when the summary's iteration
count is a multiple of n; that count is at least 1, so the condition fires
exactly on nonzero multiples of n. -/
theorem every_n_iterations_fires (n : Nat) (hn : 0 < n) (o : Observer)
    (st : RState) (chk : Outcome) :
    ((Condition.EveryNIterations n).check (o.observe st chk).1 = true
        ↔ n ∣ ((o.observe st chk).1).iterations)
    ∧ 1 ≤ ((o.observe st chk).1).iterations
    ∧ ((Condition.EveryNIterations n).check (o.observe st chk).1 = true
        ↔ (n ∣ ((o.observe st chk).1).iterations
            ∧ ((o.observe st chk).1).iterations ≠ 0)) := by
  have h1 : 1 ≤ ((o.observe st chk).1).iterations := one_le_satSucc _
  have hiff : (Condition.EveryNIterations n).check (o.observe st chk).1 = true
      ↔ n ∣ ((o.observe st chk).1).iterations := by
    unfold Condition.check
    rw [beq_iff_eq]
    exact Nat.dvd_iff_mod_eq_zero.symm
  refine ⟨hiff, h1, ?_⟩
  rw [hiff]
  constructor
  · intro hd
    exact ⟨hd, by omega⟩
  · intro hd
    exact hd.1

/-- Witness for C7 at n = 2 on a fresh observer: the first observation's
summary has iteration count 1 and the condition does not fire. -/
theorem every_n_iterations_fires_witness :
    0 < 2
    ∧ (((Condition.EveryNIterations 2).check
          ((Observer.observe ⟨fun _ => none, 0⟩ ([] : RState) .Unknown).1)
          = true
        ↔ 2 ∣ ((Observer.observe ⟨fun _ => none, 0⟩ ([] : RState)
            .Unknown).1).iterations)
      ∧ 1 ≤ ((Observer.observe ⟨fun _ => none, 0⟩ ([] : RState)
          .Unknown).1).iterations
      ∧ (((Condition.EveryNIterations 2).check
            ((Observer.observe ⟨fun _ => none, 0⟩ ([] : RState) .Unknown).1)
            = true)
          ↔ (2 ∣ ((Observer.observe ⟨fun _ => none, 0⟩ ([] : RState)
                .Unknown).1).iterations
              ∧ ((Observer.observe ⟨fun _ => none, 0⟩ ([] : RState)
                  .Unknown).1).iterations ≠ 0))) :=
  ⟨by decide,
   every_n_iterations_fires 2 (by decide) ⟨fun _ => none, 0⟩ ([] : RState)
     .Unknown⟩

/-- C3: on an instance whose workers have halted, `into_outcome` with
`Rotate` clears the halt signal (the returned instance's signal reads as
no halt) and returns the instance for reuse; with `Exit` it extracts the
shared tester state, failing with `LockReleaseFailed` exactly when more
than one reference to the shared state is live at the unwrap (the one kept
clone plus any external references). -/
theorem into_outcome_spec (inst : InstanceM) (h : 0 < inst.nhandles) :
    (Instance.into_outcome inst .Rotate
        = .ok (.Rotate { inst with halt_signal := 0 })
      ∧ Signal.get
          ({ inst with halt_signal := 0 } : InstanceM).halt_signal = none)
    ∧ ((Instance.into_outcome inst .Exit = .error .LockReleaseFailed)
        ↔ 1 < inst.external + 1)
    ∧ (inst.external = 0 →
        Instance.into_outcome inst .Exit = .ok .Exit) := by
  have hno : ¬ inst.nhandles = 0 := by omega
  refine ⟨⟨?_, rfl⟩, ?_, ?_⟩
  · unfold Instance.into_outcome
    rw [if_neg hno]
    rfl
  · unfold Instance.into_outcome Inner.get_state
    rw [if_neg hno]
    by_cases he : inst.external + 1 = 1
    · rw [if_pos he]
      constructor
      · intro hcontr
        cases hcontr
      · intro hcontr
        omega
    · rw [if_neg he]
      constructor
      · intro _
        omega
      · intro _
        rfl
  · intro he
    unfold Instance.into_outcome Inner.get_state
    rw [if_neg hno, if_pos (by omega)]
    rfl

/-- Witness for C3 at a two-handle instance with no external references
and a pending Exit signal. -/
theorem into_outcome_spec_witness :
    0 < (2 : Nat)
    ∧ ((Instance.into_outcome ⟨2, 0, 2⟩ .Rotate
          = .ok (.Rotate ⟨2, 0, 0⟩)
        ∧ Signal.get (0 : Nat) = none)
      ∧ ((Instance.into_outcome ⟨2, 0, 2⟩ .Exit
            = .error .LockReleaseFailed) ↔ 1 < 0 + 1)
      ∧ ((0 : Nat) = 0 →
          Instance.into_outcome ⟨2, 0, 2⟩ .Exit = .ok .Exit)) :=
  ⟨by decide, into_outcome_spec ⟨2, 0, 2⟩ (by decide)⟩

/-- C4: building a report by `Report::insert` from an absent outcome makes
the final outcome the maximum of the inserted outcomes under
`Pass < Fail < Unknown`, absent exactly when nothing was inserted; the law
holds of `Observer::into_report` for every drain order of the map, whose
records all land in the states list. -/
theorem report_outcome_max (pairs : List (RState × Info)) :
    ((intoReport pairs).outcome = none ↔ pairs = [])
    ∧ (∀ oc, (intoReport pairs).outcome = some oc
        ↔ (oc ∈ pairs.map (fun si => si.2.outcome)
            ∧ ∀ oc' ∈ pairs.map (fun si => si.2.outcome),
              oc'.toNat ≤ oc.toNat))
    ∧ (∀ pairs', pairs.Perm pairs' →
        (intoReport pairs).outcome = (intoReport pairs').outcome)
    ∧ (intoReport pairs).states.map (fun st => (st.state, st.info)) = pairs :=
  ⟨reportOutcome_none_iff pairs, fun oc => reportOutcome_some_iff pairs oc,
   fun pairs' h => reportOutcome_perm pairs pairs' h, intoReport_states pairs⟩

/-- Witness for C4: draining two records in either order yields the same
aggregate outcome. -/
theorem report_outcome_max_witness :
    (intoReport [(([] : RState), Info.new .Pass 0),
        ([("x", Value.I32 1)], Info.new .Fail 1)]).outcome
      = (intoReport [([("x", Value.I32 1)], Info.new .Fail 1),
          (([] : RState), Info.new .Pass 0)]).outcome :=
  (report_outcome_max [(([] : RState), Info.new .Pass 0),
      ([("x", Value.I32 1)], Info.new .Fail 1)]).2.2.1
    [([("x", Value.I32 1)], Info.new .Fail 1),
      (([] : RState), Info.new .Pass 0)]
    (List.Perm.swap ([("x", Value.I32 1)], Info.new .Fail 1)
      (([] : RState), Info.new .Pass 0) [])

/-- C8: the controller's `exit_type` returns the maximum halt type among
the rules whose condition fires (under `Rotate < Exit`) and no halt when
no rule fires; in particular, when both a Rotate rule and an Exit rule
fire, the emitted halt type is `Exit`. -/
theorem exit_type_max (rules : List Rule) (s : Summary) :
    (exitType rules s = none ↔ ∀ r ∈ rules, r.condition.check s = false)
    ∧ (exitType rules s = some .Exit
        ↔ ∃ r ∈ rules, r.condition.check s = true ∧ r.halt_type = .Exit)
    ∧ (exitType rules s = some .Rotate
        ↔ ((∃ r ∈ rules, r.condition.check s = true)
            ∧ ¬∃ r ∈ rules, r.condition.check s = true
                ∧ r.halt_type = .Exit))
    ∧ ((∃ r ∈ rules, r.condition.check s = true ∧ r.halt_type = .Rotate) →
        (∃ r ∈ rules, r.condition.check s = true ∧ r.halt_type = .Exit) →
        exitType rules s = some .Exit) := by
  refine ⟨?_, ?_, ?_, ?_⟩
  · unfold exitType
    rw [iterMax_none_iff, List.filterMap_eq_nil]
    exact forall_congr' fun r => imp_congr_right fun _ => Rule.exit_type_eq_none
  · unfold exitType
    rw [iterMax_eq_exit_iff, List.mem_filterMap]
    constructor
    · rintro ⟨r, hr, he⟩
      exact ⟨r, hr, Rule.exit_type_eq_some.mp he⟩
    · rintro ⟨r, hr, hc, ht⟩
      exact ⟨r, hr, Rule.exit_type_eq_some.mpr ⟨hc, ht⟩⟩
  · unfold exitType
    rw [iterMax_eq_rotate_iff]
    constructor
    · rintro ⟨hne, hnm⟩
      constructor
      · obtain ⟨t, ht⟩ := List.exists_mem_of_ne_nil _ hne
        obtain ⟨r, hr, he⟩ := List.mem_filterMap.mp ht
        exact ⟨r, hr, (Rule.exit_type_eq_some.mp he).1⟩
      · rintro ⟨r, hr, hc, hht⟩
        exact hnm
          (List.mem_filterMap.mpr ⟨r, hr, Rule.exit_type_eq_some.mpr ⟨hc, hht⟩⟩)
    · rintro ⟨⟨r, hr, hc⟩, hnex⟩
      refine ⟨?_, ?_⟩
      · intro hnil
        have hr0 := List.filterMap_eq_nil.mp hnil r hr
        rw [Rule.exit_type_eq_none] at hr0
        rw [hr0] at hc
        cases hc
      · intro hm
        obtain ⟨r', hr', he'⟩ := List.mem_filterMap.mp hm
        exact hnex ⟨r', hr', Rule.exit_type_eq_some.mp he'⟩
  · intro _ hex
    unfold exitType
    rw [iterMax_eq_exit_iff, List.mem_filterMap]
    obtain ⟨r, hr, hc, ht⟩ := hex
    exact ⟨r, hr, Rule.exit_type_eq_some.mpr ⟨hc, ht⟩⟩

/-- Witness for C8: a firing Rotate rule together with a firing Exit rule
yields the halt type `Exit`. -/
theorem exit_type_max_witness :
    exitType
      [⟨Condition.OnSignal true, .Rotate⟩, ⟨Condition.OnSignal true, .Exit⟩]
      ⟨1, Info.new .Pass 0⟩ = some .Exit :=
  (exit_type_max
      [⟨Condition.OnSignal true, .Rotate⟩, ⟨Condition.OnSignal true, .Exit⟩]
      ⟨1, Info.new .Pass 0⟩).2.2.2
    ⟨⟨Condition.OnSignal true, .Rotate⟩, by simp, rfl, rfl⟩
    ⟨⟨Condition.OnSignal true, .Exit⟩, by simp, rfl, rfl⟩

/-- Witness for C9 on a one-atomic-one-non-atomic reservation, at one
in-range and one out-of-range slot. -/
theorem slotset_access_total_witness :
    ((0 : Nat) < slotBound ⟨1, 1⟩ ⟨true, 0⟩ →
      (Slotset.set ⟨[5], [7]⟩ ⟨true, 0⟩ 9).get ⟨true, 0⟩ = 9)
    ∧ (slotBound ⟨1, 1⟩ ⟨false, 3⟩ ≤ (3 : Nat) →
        Slotset.get ⟨[5], [7]⟩ ⟨false, 3⟩ = 0)
    ∧ (slotBound ⟨1, 1⟩ ⟨false, 3⟩ ≤ (3 : Nat) →
        Slotset.set ⟨[5], [7]⟩ ⟨false, 3⟩ 9 = ⟨[5], [7]⟩) :=
  ⟨(slotset_access_total ⟨1, 1⟩ ⟨[5], [7]⟩ ⟨true, 0⟩ 9 rfl rfl).1,
   (slotset_access_total ⟨1, 1⟩ ⟨[5], [7]⟩ ⟨false, 3⟩ 9 rfl rfl).2.1,
   (slotset_access_total ⟨1, 1⟩ ⟨[5], [7]⟩ ⟨false, 3⟩ 9 rfl rfl).2.2⟩

end Phph
